import Mathlib

/-!
Verification of the weight-measurement pipeline of `src/cmd/weight_sensor_test.rs`
(struct `WeightProcessor` and its worker loop, plus the result channel wiring in
`main`).  The Rust code is shallowly embedded: `i32` values are modelled as `ℤ`
(the pipeline's arithmetic never approaches the `i32` boundaries in its domain,
and the `as i32` saturating cast from `f32` is modelled explicitly), `f32`
values are modelled by the type `F32` below, `VecDeque<i32>` by `List ℤ`, and
the fallible Rust functions returning `anyhow::Result` by `Except String`.
-/

namespace WeightSensor

/-- Model of a Rust `f32` value as used by the pipeline.  Finite values are
idealized as exact rationals (no 24-bit mantissa rounding); the IEEE special
values NaN and the two infinities are kept explicit because the pipeline's
zero test, division, rounding and saturating cast all distinguish them.
Signed zero is collapsed into `finite 0`, which agrees with every operation
modelled here (`-0.0 == 0.0` holds in IEEE comparison). -/
inductive F32 where
  | finite (q : ℚ)
  | nan
  | inf
  | neginf
deriving DecidableEq

/-- Model of the IEEE equality `f == 0.0` used (negated) by the source guard
`transform_factor != 0.0`: true exactly on (positive or negative) zero, false
on NaN (IEEE: `NaN != 0.0` is true) and on every other value. -/
def F32.isZero : F32 → Bool
  | .finite q => if q = 0 then true else false
  | _ => false

/-- Model of IEEE `f32` division on `F32` values, with exact finite
arithmetic.  Division by a finite zero follows the IEEE sign rules with the
collapsed-sign-of-zero convention; the pipeline never reaches that case
because `adc_data_transform` guards the divisor against zero first. -/
def F32.div : F32 → F32 → F32
  | .nan, _ => .nan
  | _, .nan => .nan
  | .finite a, .finite b =>
      if b = 0 then (if a = 0 then .nan else if 0 < a then .inf else .neginf)
      else .finite (a / b)
  | .finite _, .inf => .finite 0
  | .finite _, .neginf => .finite 0
  | .inf, .finite b => if 0 ≤ b then .inf else .neginf
  | .neginf, .finite b => if 0 ≤ b then .neginf else .inf
  | .inf, .inf => .nan
  | .inf, .neginf => .nan
  | .neginf, .inf => .nan
  | .neginf, .neginf => .nan

/-- Rounding half away from zero on an exact rational, the semantics of Rust's
`f32::round`. -/
def roundHalfAway (q : ℚ) : ℤ := if 0 ≤ q then ⌊q + 1 / 2⌋ else ⌈q - 1 / 2⌉

/-- Model of Rust's `f32::round`: round half away from zero on finite values,
identity on NaN and the infinities. -/
def F32.roundAway : F32 → F32
  | .finite q => .finite (roundHalfAway q)
  | x => x

/-- Truncation toward zero of an exact rational, the first stage of the Rust
`as i32` cast. -/
def ratTrunc (q : ℚ) : ℤ := if 0 ≤ q then ⌊q⌋ else ⌈q⌉

/-- Clamping of an integer into the `i32` range, the saturating stage of the
Rust `as i32` cast. -/
def clampI32 (n : ℤ) : ℤ := max (-2147483648) (min n 2147483647)

/-- Model of the Rust saturating cast `f32 as i32`: truncate toward zero,
saturate at the `i32` bounds, map NaN to 0 and the infinities to the
respective bound. -/
def F32.toI32 : F32 → ℤ
  | .finite q => clampI32 (ratTrunc q)
  | .nan => 0
  | .inf => 2147483647
  | .neginf => -2147483648

/-- Model of the Rust conversion `i32 as f32`, idealized as exact. -/
def F32.ofInt (n : ℤ) : F32 := .finite (n : ℚ)

/-- Error message of `adc_data_transform` when the transform factor is zero
(source: "矫正因子为0时无法转换重量，请设置矫正因子"). -/
def calibrationErrorMsg : String := "transform factor is 0, cannot convert weight"

/-- Error message of `set_transform_factor` when the reference weight is zero
(source: "实际重量不能为0"). -/
def invalidReferenceMsg : String := "actual weight must not be 0"

/-- Embedding of `WeightProcessor::adc_data_transform` (weight_sensor_test.rs
lines 70-90): if the transform factor is not IEEE-equal to `0.0`, subtract the
zero offset, divide as `f32`, round half away from zero and cast with the
saturating `as i32`; otherwise fail with the calibration error. -/
def adc_data_transform (adc_data zero_offset : ℤ) (transform_factor : F32) :
    Except String ℤ :=
  if transform_factor.isZero = false then
    Except.ok ((F32.div (F32.ofInt (adc_data - zero_offset)) transform_factor).roundAway.toI32)
  else
    Except.error calibrationErrorMsg

/-- Embedding of `WeightProcessor::queue_push` (lines 45-55): when the queue
has reached the capacity, pop `len - cap + 1` elements from the front (the
loop `for _ in 0..(queue.len() - cap + 1)`, where a pop on an empty queue is a
no-op, which `List.drop`'s saturation reproduces), then append the new value
at the back. -/
def queue_push {α : Type} (queue : List α) (cap : ℕ) (value : α) : List α :=
  if cap ≤ queue.length then queue.drop (queue.length - cap + 1) ++ [value]
  else queue ++ [value]

/-- Embedding of `WeightProcessor::queue_average` (lines 58-67): the truncated
(`i32`, round-toward-zero) mean of the queue, 0 when it is empty. -/
def queue_average (queue : List ℤ) : ℤ :=
  if 0 < queue.length then Int.tdiv queue.sum (queue.length : ℤ) else 0

/-- Embedding of the comparison loop inside `WeightProcessor::is_stable`
(lines 104-136): walk the queue transforming each entry; a failed transform
yields `false` immediately, the first transformed weight is remembered, and
any later disagreeing weight yields `false`; an exhausted walk yields
`true`. -/
def stableScan (zero_offset : ℤ) (transform_factor : F32) :
    List ℤ → Option ℤ → Bool
  | [], _ => true
  | item :: rest, tmp =>
    match adc_data_transform item zero_offset transform_factor with
    | .error _ => false
    | .ok item_weight =>
      match tmp with
      | some t =>
        if item_weight ≠ t then false
        else stableScan zero_offset transform_factor rest (some t)
      | none => stableScan zero_offset transform_factor rest (some item_weight)

/-- Embedding of `WeightProcessor::is_stable` (lines 94-138): a queue shorter
than the stability capacity is not stable; otherwise the comparison loop
decides. -/
def is_stable (adc_data_stable_queue : List ℤ) (sq_cap : ℕ)
    (zero_offset : ℤ) (transform_factor : F32) : Bool :=
  if adc_data_stable_queue.length < sq_cap then false
  else stableScan zero_offset transform_factor adc_data_stable_queue none

/-- Embedding of the `WeightStatus` enum (lines 19-30). -/
inductive WeightStatus where
  | Unstable
  | Stable
  | Underload
  | Overload
  | Error
deriving DecidableEq

/-- Status computation of a successful cycle of `loop_read` (lines 276-296):
negative weight is underload; weight above 5000 is overload; otherwise the
stability check decides between stable and unstable. -/
def weight_status (weight : ℤ) (adc_data_stable_queue : List ℤ) (sq_cap : ℕ)
    (zero_offset : ℤ) (transform_factor : F32) : WeightStatus :=
  if weight < 0 then .Underload
  else if 5000 < weight then .Overload
  else if is_stable adc_data_stable_queue sq_cap zero_offset transform_factor then .Stable
  else .Unstable

/-- Thread-local and shared state of the worker, i.e. the two queues owned by
the `loop_read` thread together with the three atomics of `WeightProcessor`
(`adc_data_latest_average`, `adc_data_zero_offset`,
`adc_data_transform_factor`). -/
structure WorkerState where
  bufferQueue : List ℤ
  stableQueue : List ℤ
  latestAverage : ℤ
  zeroOffset : ℤ
  transformFactor : F32
deriving DecidableEq

/-- Observable outcome of one iteration of the worker loop: the state after
the iteration, the list of results sent on the channel during the iteration
(empty or a single pair), and whether the iteration ends in the mandatory
100 ms inter-read sleep (every path of the source sleeps exactly once: line
270 in the transform-failure branch, line 315 otherwise). -/
structure CycleOutput where
  state : WorkerState
  published : List (ℤ × WeightStatus)
  sleeps : Bool
deriving DecidableEq

/-- Embedding of one iteration of the steady-state loop in
`WeightProcessor::loop_read` (lines 233-316).  `readResult` is the outcome of
`hx711.read()`: `none` models a read error.  On a successful read the sample
is pushed into the buffer queue, the new average is stored as the latest
average and pushed into the stability queue, and the average is transformed;
a transform failure publishes nothing and the iteration ends (the source
sleeps and `continue`s), while a successful transform publishes the weight
with its status.  On a read error `(0, Error)` is published and no state is
touched. -/
def loop_read_cycle (bq_cap sq_cap : ℕ) (s : WorkerState)
    (readResult : Option ℤ) : CycleOutput :=
  match readResult with
  | none => ⟨s, [(0, .Error)], true⟩
  | some data =>
    let bq := queue_push s.bufferQueue bq_cap data
    let avg := queue_average bq
    let sq := queue_push s.stableQueue sq_cap avg
    let s1 : WorkerState := ⟨bq, sq, avg, s.zeroOffset, s.transformFactor⟩
    match adc_data_transform avg s.zeroOffset s.transformFactor with
    | .error _ => ⟨s1, [], true⟩
    | .ok weight =>
      ⟨s1, [(weight, weight_status weight sq sq_cap s.zeroOffset s.transformFactor)], true⟩

/-- Embedding of `WeightProcessor::set_transform_factor` (lines 330-353): a
zero reference weight fails with the invalid-reference error and stores
nothing; otherwise the factor `(latest_average - zero_offset) as f32 /
actual_weight as f32` is stored and returned. -/
def set_transform_factor (s : WorkerState) (actual_weight : ℤ) :
    WorkerState × Except String F32 :=
  if actual_weight ≠ 0 then
    ({ s with transformFactor :=
        F32.div (F32.ofInt (s.latestAverage - s.zeroOffset)) (F32.ofInt actual_weight) },
     Except.ok (F32.div (F32.ofInt (s.latestAverage - s.zeroOffset)) (F32.ofInt actual_weight)))
  else (s, Except.error invalidReferenceMsg)

/-- Model of the bounded synchronous channel of the Rust standard library
(`std::sync::mpsc::sync_channel`), used in `main` (line 367) with capacity 1:
a buffer of pending values of at most `cap` elements. -/
structure SyncChannel (α : Type) where
  cap : ℕ
  buf : List α
deriving DecidableEq

/-- Model of `SyncSender::send`, whose documented behavior is to append the
value when buffer space is available and otherwise to block the sender until
the receiver has drained a slot: `none` means the send cannot complete now
and the producer waits (it never drops or replaces a pending value). -/
def SyncChannel.sendStep {α : Type} (c : SyncChannel α) (v : α) :
    Option (SyncChannel α) :=
  if c.buf.length < c.cap then some ⟨c.cap, c.buf ++ [v]⟩ else none

/-- Model of `Receiver::recv` on a non-empty buffer: take the oldest pending
value; `none` means the receiver blocks on an empty buffer. -/
def SyncChannel.recvStep {α : Type} (c : SyncChannel α) :
    Option (α × SyncChannel α) :=
  match c.buf with
  | [] => none
  | x :: rest => some (x, ⟨c.cap, rest⟩)

/-- Modelled from the spec: the latest-wins send the specification describes
for the Result Channel ("a send that would exceed capacity drops/replaces the
stale pending value"), written to be compared with `SyncChannel.sendStep`,
the behavior of the channel the source actually creates. -/
def latestWinsSend {α : Type} (c : SyncChannel α) (v : α) :
    Option (SyncChannel α) :=
  if c.buf.length < c.cap then some ⟨c.cap, c.buf ++ [v]⟩
  else some ⟨c.cap, c.buf.drop 1 ++ [v]⟩

/-- Capacity of the result channel created in `main` (line 367):
`mpsc::sync_channel::<(i32, WeightStatus)>(1)`. -/
def weightChannelCap : ℕ := 1

/-- Folding a whole sequence of single pushes into an initially empty bounded
window, the scenario quantified over by the bounded-window property. -/
def pushAll {α : Type} (cap : ℕ) (vals : List α) : List α :=
  vals.foldl (fun acc v => queue_push acc cap v) []

/-- Round-trip property of the transform at a given weight, zero offset and
finite scale factor: feeding `zero_offset + round(w * f)` back through
`adc_data_transform` recovers `w` up to ±1. -/
def roundTripOK (w z : ℤ) (f : ℚ) : Prop :=
  ∀ r : ℤ,
    adc_data_transform (z + roundHalfAway ((w : ℚ) * f)) z (F32.finite f) = Except.ok r →
    -1 ≤ r - w ∧ r - w ≤ 1

/-- General helper: an `Except` value is `isOk` exactly when it is an `ok`. -/
theorem except_isOk_iff {ε α : Type} (e : Except ε α) :
    e.isOk = true ↔ ∃ b, e = Except.ok b := by
  cases e <;> simp [Except.isOk, Except.toBool]

/-- Truncation toward zero is the identity on integers. -/
theorem ratTrunc_intCast (n : ℤ) : ratTrunc (n : ℚ) = n := by
  unfold ratTrunc
  split_ifs <;> simp

/-- The saturating cast applied to a finite integral value clamps it. -/
theorem toI32_intCast (n : ℤ) : F32.toI32 (F32.finite (n : ℚ)) = clampI32 n := by
  simp [F32.toI32, ratTrunc_intCast]

/-- Clamping is the identity inside the `i32` range. -/
theorem clampI32_eq_self {n : ℤ} (h1 : -2147483648 ≤ n) (h2 : n ≤ 2147483647) :
    clampI32 n = n := by
  unfold clampI32
  rw [min_eq_left h2, max_eq_right h1]

/-- Clamping a value above the `i32` range saturates at the maximum. -/
theorem clampI32_of_gt {n : ℤ} (h : 2147483647 < n) : clampI32 n = 2147483647 := by
  unfold clampI32
  rw [min_eq_right h.le, max_eq_right (by norm_num)]

/-- Clamping a value below the `i32` range saturates at the minimum. -/
theorem clampI32_of_lt {n : ℤ} (h : n < -2147483648) : clampI32 n = -2147483648 := by
  unfold clampI32
  rw [min_eq_left (by linarith), max_eq_left (by linarith)]

/-- Clamping toward a range that contains `w` cannot move a value further
from `w`. -/
theorem clampI32_near {n w : ℤ} (hw1 : -2147483648 ≤ w) (hw2 : w ≤ 2147483647)
    (h1 : -1 ≤ n - w) (h2 : n - w ≤ 1) :
    -1 ≤ clampI32 n - w ∧ clampI32 n - w ≤ 1 := by
  unfold clampI32
  rw [max_def, min_def]
  split_ifs <;> omega

/-- The transform on a finite nonzero factor: in that case the source's
computation is exactly "subtract the offset, divide, round half away from
zero, saturate into `i32`". -/
theorem adc_data_transform_finite (x z : ℤ) (c : ℚ) (hc : c ≠ 0) :
    adc_data_transform x z (F32.finite c) =
      Except.ok (clampI32 (roundHalfAway (((x - z : ℤ) : ℚ) / c))) := by
  have h1 : F32.isZero (F32.finite c) = false := by simp [F32.isZero, hc]
  rw [adc_data_transform, if_pos h1]
  simp only [F32.ofInt, F32.div, if_neg hc, F32.roundAway]
  rw [toI32_intCast]

/-- Rounding half away from zero moves a rational by at most one half. -/
theorem roundHalfAway_bounds (q : ℚ) :
    -(1 / 2) ≤ (roundHalfAway q : ℚ) - q ∧ (roundHalfAway q : ℚ) - q ≤ 1 / 2 := by
  unfold roundHalfAway
  split_ifs with h
  · constructor
    · have := Int.lt_floor_add_one (q + 1 / 2)
      push_cast at this ⊢
      linarith
    · have := Int.floor_le (q + 1 / 2)
      push_cast at this ⊢
      linarith
  · constructor
    · have := Int.le_ceil (q - 1 / 2)
      push_cast at this ⊢
      linarith
    · have := Int.ceil_lt_add_one (q - 1 / 2)
      push_cast at this ⊢
      linarith

/-- C9: a worker cycle whose raw read fails publishes exactly `(0, Error)`,
ends in the mandatory inter-read sleep, and leaves the whole worker state —
both windows, the latest average, the zero offset and the transform factor —
unchanged. -/
theorem c9_read_failure_frame (bq_cap sq_cap : ℕ) (s : WorkerState) :
    loop_read_cycle bq_cap sq_cap s none = ⟨s, [((0 : ℤ), WeightStatus.Error)], true⟩ := rfl

/-- C1 counterexample: with a zero transform factor the top-level transform of
the cycle fails, yet the cycle publishes nothing — not the `(0, Error)`
result the claim asserts. -/
theorem c1_counterexample :
    (adc_data_transform (queue_average (queue_push ([] : List ℤ) 5 100)) 0
        (F32.finite 0)).isOk = false ∧
    (loop_read_cycle 5 3 ⟨[], [], 0, 0, F32.finite 0⟩ (some 100)).published ≠
      [((0 : ℤ), WeightStatus.Error)] := by
  constructor
  · simp [adc_data_transform, F32.isZero, Except.isOk, Except.toBool]
  · simp [loop_read_cycle, adc_data_transform, F32.isZero]

/-- C1 amended: whenever the top-level transform of the smoothed average fails
(calibration error), the worker cycle publishes nothing at all for that cycle,
still ends in the mandatory inter-read sleep, leaves the shared calibration
fields untouched, and the loop continues — the worker never terminates on
such an error. -/
theorem c1_calibration_error_cycle (bq_cap sq_cap : ℕ) (s : WorkerState) (d : ℤ)
    (e : String)
    (h : adc_data_transform (queue_average (queue_push s.bufferQueue bq_cap d))
        s.zeroOffset s.transformFactor = Except.error e) :
    (loop_read_cycle bq_cap sq_cap s (some d)).published = [] ∧
    (loop_read_cycle bq_cap sq_cap s (some d)).sleeps = true ∧
    (loop_read_cycle bq_cap sq_cap s (some d)).state.zeroOffset = s.zeroOffset ∧
    (loop_read_cycle bq_cap sq_cap s (some d)).state.transformFactor = s.transformFactor := by
  simp only [loop_read_cycle, h]
  exact ⟨trivial, trivial, trivial, trivial⟩

/-- C1 witness: the amended statement at a concrete calibration-error cycle. -/
theorem c1_witness :
    (loop_read_cycle 5 3 ⟨[], [], 0, 0, F32.finite 0⟩ (some 100)).published = [] ∧
    (loop_read_cycle 5 3 ⟨[], [], 0, 0, F32.finite 0⟩ (some 100)).sleeps = true ∧
    (loop_read_cycle 5 3 ⟨[], [], 0, 0, F32.finite 0⟩ (some 100)).state.zeroOffset = 0 ∧
    (loop_read_cycle 5 3 ⟨[], [], 0, 0, F32.finite 0⟩ (some 100)).state.transformFactor =
      F32.finite 0 :=
  c1_calibration_error_cycle 5 3 ⟨[], [], 0, 0, F32.finite 0⟩ 100 calibrationErrorMsg
    (by simp [adc_data_transform, F32.isZero])

/-- C2 counterexample: a send into the full capacity-1 result channel blocks
(it cannot complete) instead of replacing the stale pending value as the
latest-wins claim asserts. -/
theorem c2_counterexample :
    SyncChannel.sendStep ⟨1, [((0 : ℤ), WeightStatus.Error)]⟩ ((5 : ℤ), WeightStatus.Stable) =
      none ∧
    SyncChannel.sendStep ⟨1, [((0 : ℤ), WeightStatus.Error)]⟩ ((5 : ℤ), WeightStatus.Stable) ≠
      latestWinsSend ⟨1, [((0 : ℤ), WeightStatus.Error)]⟩ ((5 : ℤ), WeightStatus.Stable) := by
  constructor
  · simp [SyncChannel.sendStep]
  · simp [SyncChannel.sendStep, latestWinsSend]

/-- C2 amended: the result channel has capacity 1; a send while a pending
value occupies the slot blocks the producer until the consumer drains it (no
value is ever dropped or replaced); accepted sends append at the back and a
receive takes the oldest pending value, so results are delivered in send
order, never out of order. -/
theorem c2_capacity_one_blocking_fifo :
    weightChannelCap = 1 ∧
    (∀ x v : ℤ × WeightStatus,
        SyncChannel.sendStep ⟨weightChannelCap, [x]⟩ v = none) ∧
    (∀ (c : SyncChannel (ℤ × WeightStatus)) (v : ℤ × WeightStatus)
        (c1 : SyncChannel (ℤ × WeightStatus)),
        c.sendStep v = some c1 → c1.buf = c.buf ++ [v]) ∧
    (∀ (c : SyncChannel (ℤ × WeightStatus)) (x : ℤ × WeightStatus)
        (rest : List (ℤ × WeightStatus)),
        c.buf = x :: rest → c.recvStep = some (x, ⟨c.cap, rest⟩)) := by
  refine ⟨rfl, ?_, ?_, ?_⟩
  · intro x v
    simp [SyncChannel.sendStep, weightChannelCap]
  · intro c v c1 h
    unfold SyncChannel.sendStep at h
    split_ifs at h
    cases h
    rfl
  · intro c x rest h
    simp [SyncChannel.recvStep, h]

/-- C2 witness: the order-preservation conjunct applied to a concrete accepted
send. -/
theorem c2_witness :
    SyncChannel.buf ⟨1, [((3 : ℤ), WeightStatus.Stable)]⟩ =
      SyncChannel.buf (⟨1, []⟩ : SyncChannel (ℤ × WeightStatus)) ++
        [((3 : ℤ), WeightStatus.Stable)] :=
  c2_capacity_one_blocking_fifo.2.2.1 ⟨1, []⟩ (3, WeightStatus.Stable)
    ⟨1, [(3, WeightStatus.Stable)]⟩ (by simp [SyncChannel.sendStep])

/-- C4: the transform fails (with the calibration error) on a zero scale
factor for all inputs; on any finite nonzero factor it returns the zero-
adjusted reading divided by the factor, rounded half away from zero and cast
with the saturating `as i32`; it succeeds for every factor that is not
IEEE-equal to zero; and it is deterministic. -/
theorem c4_transform_cases :
    (∀ x z : ℤ, adc_data_transform x z (F32.finite 0) = Except.error calibrationErrorMsg) ∧
    (∀ (x z : ℤ) (c : ℚ), c ≠ 0 →
        adc_data_transform x z (F32.finite c) =
          Except.ok (clampI32 (roundHalfAway (((x - z : ℤ) : ℚ) / c)))) ∧
    (∀ (x z : ℤ) (f : F32), f.isZero = false → (adc_data_transform x z f).isOk = true) ∧
    (∀ (x z x1 z1 : ℤ) (f f1 : F32), x = x1 → z = z1 → f = f1 →
        adc_data_transform x z f = adc_data_transform x1 z1 f1) := by
  refine ⟨?_, ?_, ?_, ?_⟩
  · intro x z
    simp [adc_data_transform, F32.isZero]
  · intro x z c hc
    exact adc_data_transform_finite x z c hc
  · intro x z f hf
    simp [adc_data_transform, hf, Except.isOk, Except.toBool]
  · intro x z x1 z1 f f1 hx hz hf
    rw [hx, hz, hf]

/-- C4 witness: the finite nonzero case evaluated at a concrete input. -/
theorem c4_witness : adc_data_transform 7 2 (F32.finite 2) = Except.ok 3 := by
  have h1 : roundHalfAway (((7 - 2 : ℤ) : ℚ) / 2) = 3 := by norm_num [roundHalfAway]
  rw [c4_transform_cases.2.1 7 2 2 (by norm_num), h1,
    clampI32_eq_self (by norm_num) (by norm_num)]

/-- C10: the transform is total and never panics — for every factor that is
not IEEE-equal to `0.0` (including the non-finite ones) it returns some
integer; a NaN factor is not treated as an error and yields `Ok 0` (the NaN
quotient is cast to 0); and on finite factors the `as i32` cast saturates, a
rounded quotient above `i32::MAX` yielding `i32::MAX` and one below
`i32::MIN` yielding `i32::MIN`. -/
theorem c10_transform_total_saturating :
    (∀ (x z : ℤ) (f : F32), f.isZero = false →
        ∃ n : ℤ, adc_data_transform x z f = Except.ok n) ∧
    (∀ x z : ℤ, adc_data_transform x z F32.nan = Except.ok 0) ∧
    (∀ (x z : ℤ) (c : ℚ), c ≠ 0 →
        2147483647 < roundHalfAway (((x - z : ℤ) : ℚ) / c) →
        adc_data_transform x z (F32.finite c) = Except.ok 2147483647) ∧
    (∀ (x z : ℤ) (c : ℚ), c ≠ 0 →
        roundHalfAway (((x - z : ℤ) : ℚ) / c) < -2147483648 →
        adc_data_transform x z (F32.finite c) = Except.ok (-2147483648)) := by
  refine ⟨?_, ?_, ?_, ?_⟩
  · intro x z f hf
    exact ⟨_, by rw [adc_data_transform, if_pos hf]⟩
  · intro x z
    simp [adc_data_transform, F32.isZero, F32.div, F32.ofInt, F32.roundAway, F32.toI32]
  · intro x z c hc h
    rw [adc_data_transform_finite x z c hc, clampI32_of_gt h]
  · intro x z c hc h
    rw [adc_data_transform_finite x z c hc, clampI32_of_lt h]

/-- C10 witness: the NaN case and a saturating case at concrete inputs. -/
theorem c10_witness :
    adc_data_transform 5 2 F32.nan = Except.ok 0 ∧
    adc_data_transform 1099511627776 0 (F32.finite 1) = Except.ok 2147483647 :=
  ⟨c10_transform_total_saturating.2.1 5 2,
   c10_transform_total_saturating.2.2.1 1099511627776 0 1 (by norm_num)
     (by norm_num [roundHalfAway])⟩

/-- C8: setting the transform factor fails with the invalid-reference error
exactly on a zero reference weight, leaving the stored factor unchanged; any
nonzero reference weight stores and returns
`(latest_average - zero_offset) / reference_weight`; concretely, a latest
average of 130000, zero offset 30000 and reference weight 100 yield the
factor 1000. -/
theorem c8_set_transform_factor_spec :
    (∀ s : WorkerState, set_transform_factor s 0 = (s, Except.error invalidReferenceMsg)) ∧
    (∀ (s : WorkerState) (aw : ℤ), aw ≠ 0 →
        (set_transform_factor s aw).1.transformFactor =
          F32.finite (((s.latestAverage - s.zeroOffset : ℤ) : ℚ) / (aw : ℚ)) ∧
        (set_transform_factor s aw).2 =
          Except.ok (F32.finite (((s.latestAverage - s.zeroOffset : ℤ) : ℚ) / (aw : ℚ)))) ∧
    (∀ (s : WorkerState) (aw : ℤ), (set_transform_factor s aw).2.isOk = true ↔ aw ≠ 0) ∧
    (set_transform_factor ⟨[], [], 130000, 30000, F32.finite 1⟩ 100).2 =
      Except.ok (F32.finite 1000) := by
  have hdiv : ∀ (s : WorkerState) (aw : ℤ), aw ≠ 0 →
      F32.div (F32.ofInt (s.latestAverage - s.zeroOffset)) (F32.ofInt aw) =
        F32.finite (((s.latestAverage - s.zeroOffset : ℤ) : ℚ) / (aw : ℚ)) := by
    intro s aw haw
    have : ((aw : ℚ)) ≠ 0 := Int.cast_ne_zero.mpr haw
    simp [F32.ofInt, F32.div, this]
  refine ⟨?_, ?_, ?_, ?_⟩
  · intro s
    simp [set_transform_factor]
  · intro s aw haw
    rw [set_transform_factor, if_pos haw]
    exact ⟨by simp [hdiv s aw haw], by simp [hdiv s aw haw]⟩
  · intro s aw
    by_cases haw : aw = 0
    · subst haw
      simp [set_transform_factor, Except.isOk, Except.toBool]
    · rw [set_transform_factor, if_pos haw]
      simp [Except.isOk, Except.toBool, haw]
  · rw [set_transform_factor, if_pos (by norm_num)]
    have h := hdiv ⟨[], [], 130000, 30000, F32.finite 1⟩ 100 (by norm_num)
    rw [h]
    norm_num

/-- C8 witness: the success-iff-nonzero conjunct applied at a concrete
state and reference weight. -/
theorem c8_witness :
    (set_transform_factor ⟨[], [], 200, 100, F32.nan⟩ 50).2.isOk = true :=
  (c8_set_transform_factor_spec.2.2.1 ⟨[], [], 200, 100, F32.nan⟩ 50).mpr (by norm_num)

/-- C7: in a successful cycle the published status is derived from the
transformed weight in strict priority order — a negative weight gives
Underload whatever the stability window holds, a weight above 5000 gives
Overload, and otherwise the stability classifier decides between Stable and
Unstable; and the cycle indeed publishes exactly that status alongside the
weight. -/
theorem c7_status_priority :
    (∀ (weight : ℤ) (sq : List ℤ) (sq_cap : ℕ) (z : ℤ) (f : F32),
        weight < 0 → weight_status weight sq sq_cap z f = WeightStatus.Underload) ∧
    (∀ (weight : ℤ) (sq : List ℤ) (sq_cap : ℕ) (z : ℤ) (f : F32),
        0 ≤ weight → 5000 < weight →
        weight_status weight sq sq_cap z f = WeightStatus.Overload) ∧
    (∀ (weight : ℤ) (sq : List ℤ) (sq_cap : ℕ) (z : ℤ) (f : F32),
        0 ≤ weight → weight ≤ 5000 →
        weight_status weight sq sq_cap z f =
          (if is_stable sq sq_cap z f then WeightStatus.Stable else WeightStatus.Unstable)) ∧
    (∀ (bq_cap sq_cap : ℕ) (s : WorkerState) (d weight : ℤ),
        adc_data_transform (queue_average (queue_push s.bufferQueue bq_cap d))
            s.zeroOffset s.transformFactor = Except.ok weight →
        (loop_read_cycle bq_cap sq_cap s (some d)).published =
          [(weight,
            weight_status weight
              (queue_push s.stableQueue sq_cap (queue_average (queue_push s.bufferQueue bq_cap d)))
              sq_cap s.zeroOffset s.transformFactor)]) := by
  refine ⟨?_, ?_, ?_, ?_⟩
  · intro weight sq sq_cap z f h
    rw [weight_status, if_pos h]
  · intro weight sq sq_cap z f h1 h2
    rw [weight_status, if_neg (by omega), if_pos h2]
  · intro weight sq sq_cap z f h1 h2
    rw [weight_status, if_neg (by omega), if_neg (by omega)]
  · intro bq_cap sq_cap s d weight h
    simp only [loop_read_cycle, h]

/-- C7 witness: the Underload priority case at a concrete weight and a
non-empty stability window. -/
theorem c7_witness :
    weight_status (-5) [100, 100, 100] 3 0 (F32.finite 1) = WeightStatus.Underload :=
  c7_status_priority.1 (-5) [100, 100, 100] 3 0 (F32.finite 1) (by norm_num)

/-- A single push into a not-overfull window with positive capacity keeps the
suffix discipline: the result is the last `cap` elements of the extended
sequence. -/
theorem queue_push_eq_drop {α : Type} (q : List α) (cap : ℕ) (v : α)
    (hcap : 1 ≤ cap) (hq : q.length ≤ cap) :
    queue_push q cap v = (q ++ [v]).drop (q.length + 1 - cap) := by
  unfold queue_push
  by_cases h : cap ≤ q.length
  · have hlen : q.length = cap := le_antisymm hq h
    rw [if_pos h, hlen]
    have e1 : cap - cap + 1 = 1 := by omega
    have e2 : cap + 1 - cap = 1 := by omega
    rw [e1, e2, List.drop_append_of_le_length (by omega)]
  · rw [if_neg h]
    have e : q.length + 1 - cap = 0 := by omega
    rw [e, List.drop_zero]

/-- Folding pushes with positive capacity from any not-overfull start leaves
exactly the last `cap` elements of the concatenated sequence. -/
theorem pushAll_fold {α : Type} (cap : ℕ) (hcap : 1 ≤ cap) :
    ∀ vals q : List α, q.length ≤ cap →
      vals.foldl (fun acc v => queue_push acc cap v) q =
        (q ++ vals).drop (q.length + vals.length - cap) := by
  intro vals
  induction vals with
  | nil =>
    intro q hq
    simp [Nat.sub_eq_zero_of_le hq]
  | cons v vs ih =>
    intro q hq
    rw [List.foldl_cons]
    have hplen : (queue_push q cap v).length ≤ cap := by
      rw [queue_push_eq_drop q cap v hcap hq, List.length_drop]
      simp only [List.length_append, List.length_cons, List.length_nil]
      omega
    rw [ih (queue_push q cap v) hplen, queue_push_eq_drop q cap v hcap hq]
    have hle : q.length + 1 - cap ≤ (q ++ [v]).length := by
      simp only [List.length_append, List.length_cons, List.length_nil]
      omega
    rw [List.length_drop, ← List.drop_append_of_le_length hle, List.drop_drop,
      List.append_assoc, List.singleton_append]
    congr 1
    simp only [List.length_append, List.length_cons, List.length_nil]
    omega

/-- C3 counterexample: with capacity 0 a single push yields a window of
length 1, not `min 1 0 = 0`, so the claim fails for capacity 0 (the source's
eviction loop pops from an already empty queue and then appends anyway). -/
theorem c3_counterexample :
    (pushAll 0 [(5 : ℤ)]).length = 1 ∧
    (pushAll 0 [(5 : ℤ)]).length ≠ min ([(5 : ℤ)].length) 0 := by
  constructor <;> simp [pushAll, queue_push]

/-- C3 amended: for every capacity `C ≥ 1` and every sequence of pushes into
an initially empty window, the final length is `min N C`, the contents are
the last `C` pushed values in push order, and the length never exceeds `C`
after any prefix of the pushes. -/
theorem c3_bounded_window (C : ℕ) (vals : List ℤ) (hC : 1 ≤ C) :
    (pushAll C vals).length = min vals.length C ∧
    pushAll C vals = vals.drop (vals.length - C) ∧
    (∀ i : ℕ, (pushAll C (vals.take i)).length ≤ C) := by
  have key : ∀ l : List ℤ, pushAll C l = l.drop (l.length - C) := by
    intro l
    have h := pushAll_fold C hC l [] (by simp)
    simpa [pushAll] using h
  refine ⟨?_, key vals, ?_⟩
  · rw [key vals, List.length_drop]
    omega
  · intro i
    rw [key (vals.take i), List.length_drop]
    omega

/-- C3 witness: the amended statement at capacity 2 with three pushes. -/
theorem c3_witness :
    (pushAll 2 [(1 : ℤ), 2, 3]).length = min ([(1 : ℤ), 2, 3].length) 2 ∧
    pushAll 2 [(1 : ℤ), 2, 3] = [(1 : ℤ), 2, 3].drop ([(1 : ℤ), 2, 3].length - 2) ∧
    (∀ i : ℕ, (pushAll 2 ([(1 : ℤ), 2, 3].take i)).length ≤ 2) :=
  c3_bounded_window 2 [1, 2, 3] (by norm_num)

/-- The comparison loop carrying a remembered weight succeeds exactly when
every remaining entry transforms to that same weight. -/
theorem stableScan_some_iff (z : ℤ) (f : F32) :
    ∀ (l : List ℤ) (t : ℤ),
      stableScan z f l (some t) = true ↔
        ∀ x ∈ l, adc_data_transform x z f = Except.ok t := by
  intro l
  induction l with
  | nil =>
    intro t
    simp [stableScan]
  | cons a as ih =>
    intro t
    simp only [stableScan]
    cases ha : adc_data_transform a z f with
    | error e => simp [List.forall_mem_cons, ha]
    | ok w =>
      by_cases hw : w = t
      · subst hw
        simp [List.forall_mem_cons, ha, ih]
      · simp [List.forall_mem_cons, ha, hw]

/-- The comparison loop started with no remembered weight succeeds exactly
when some single weight is the transform of every entry. -/
theorem stableScan_none_iff (z : ℤ) (f : F32) (l : List ℤ) :
    stableScan z f l none = true ↔
      ∃ t : ℤ, ∀ x ∈ l, adc_data_transform x z f = Except.ok t := by
  cases l with
  | nil => simp [stableScan]
  | cons a as =>
    simp only [stableScan]
    cases ha : adc_data_transform a z f with
    | error e =>
      constructor
      · intro h
        simp at h
      · rintro ⟨t, ht⟩
        have hat := ht a (List.mem_cons_self a as)
        rw [ha] at hat
        exact Except.noConfusion hat
    | ok w =>
      rw [stableScan_some_iff z f as w]
      constructor
      · intro h
        exact ⟨w, List.forall_mem_cons.mpr ⟨ha, h⟩⟩
      · rintro ⟨t, ht⟩
        have hat := ht a (List.mem_cons_self a as)
        rw [ha] at hat
        injection hat with hwt
        subst hwt
        intro x hx
        exact ht x (List.mem_cons_of_mem a hx)

/-- C6: the classifier returns stable exactly when the window holds (at
least) its full capacity of entries, every entry transforms successfully
under the given offset and factor, and all transformed weights agree under
exact integer equality; a short window, a transform failure (swallowed, not
propagated — the classifier still returns a plain boolean) or any
disagreement each yield not-stable. -/
theorem c6_is_stable_iff (q : List ℤ) (sq_cap : ℕ) (z : ℤ) (f : F32) :
    is_stable q sq_cap z f = true ↔
      (sq_cap ≤ q.length ∧
       (∀ x ∈ q, (adc_data_transform x z f).isOk = true) ∧
       (∀ x ∈ q, ∀ y ∈ q, adc_data_transform x z f = adc_data_transform y z f)) := by
  unfold is_stable
  by_cases hlen : q.length < sq_cap
  · rw [if_pos hlen]
    constructor
    · intro h
      simp at h
    · rintro ⟨hc, -, -⟩
      omega
  · rw [if_neg hlen, stableScan_none_iff]
    constructor
    · rintro ⟨t, ht⟩
      refine ⟨by omega, ?_, ?_⟩
      · intro x hx
        rw [ht x hx]
        rfl
      · intro x hx y hy
        rw [ht x hx, ht y hy]
    · rintro ⟨hc, hok, heq⟩
      cases q with
      | nil => exact ⟨0, by simp⟩
      | cons a as =>
        obtain ⟨w, hw⟩ := (except_isOk_iff _).mp (hok a (List.mem_cons_self a as))
        refine ⟨w, ?_⟩
        intro x hx
        rw [heq x hx a (List.mem_cons_self a as), hw]

/-- C6 witness: a full, agreeing window classified stable through the
characterization. -/
theorem c6_witness : is_stable [100, 100, 100] 3 0 (F32.finite 10) = true :=
  (c6_is_stable_iff [100, 100, 100] 3 0 (F32.finite 10)).mpr
    ⟨by norm_num,
     by
      intro x hx
      simp only [List.mem_cons, List.not_mem_nil, or_false] at hx
      rcases hx with h | h | h <;> subst h <;>
        rw [adc_data_transform_finite 100 0 10 (by norm_num)] <;> rfl,
     by
      intro x hx y hy
      simp only [List.mem_cons, List.not_mem_nil, or_false] at hx hy
      rcases hx with h | h | h <;> subst h <;>
        rcases hy with h2 | h2 | h2 <;> subst h2 <;> rfl⟩

/-- C5 counterexample: the round trip fails as stated for the nonzero scale
factor 1/10 at weight 3 — `round(3 * 1/10) = 0`, so the transform returns 0,
which is 3 away from the original weight, far beyond the claimed ±1. -/
theorem c5_counterexample : ¬ roundTripOK 3 0 (1 / 10) := by
  intro h
  have e1 : roundHalfAway (((3 : ℤ) : ℚ) * (1 / 10)) = 0 := by
    norm_num [roundHalfAway]
  have e2 : roundHalfAway (((0 + 0 - 0 : ℤ) : ℚ) / (1 / 10)) = 0 := by
    norm_num [roundHalfAway]
  have htr : adc_data_transform (0 + roundHalfAway (((3 : ℤ) : ℚ) * (1 / 10))) 0
      (F32.finite (1 / 10)) = Except.ok 0 := by
    rw [e1, adc_data_transform_finite (0 + 0) 0 (1 / 10) (by norm_num), e2,
      clampI32_eq_self (by norm_num) (by norm_num)]
  have h0 := h 0 htr
  norm_num at h0

/-- C5 amended: for every integer weight in the `i32` range, every zero
offset, and every scale factor of absolute value at least 1/2, feeding
`zero_offset + round(w * f)` through the transform recovers `w` to within
±1.  (The restriction `|f| ≥ 1/2` is forced: rounding `w * f` can lose up to
1/2, which the division by `f` magnifies by `1/|f|`.) -/
theorem c5_round_trip (w z : ℤ) (f : ℚ)
    (hw1 : -2147483648 ≤ w) (hw2 : w ≤ 2147483647) (hf : 1 / 2 ≤ |f|) :
    roundTripOK w z f := by
  intro r hr
  have hfne : f ≠ 0 := by
    intro h0
    rw [h0] at hf
    norm_num at hf
  rw [adc_data_transform_finite _ _ _ hfne] at hr
  have hzz : z + roundHalfAway ((w : ℚ) * f) - z = roundHalfAway ((w : ℚ) * f) := by
    ring
  rw [hzz] at hr
  set m := roundHalfAway ((w : ℚ) * f) with hm
  set r0 := roundHalfAway ((m : ℚ) / f) with hr0
  have hb1 := roundHalfAway_bounds ((w : ℚ) * f)
  have hb2 := roundHalfAway_bounds ((m : ℚ) / f)
  rw [← hm] at hb1
  rw [← hr0] at hb2
  have hfpos : (0 : ℚ) < |f| := by linarith
  have habs1 : |(m : ℚ) - (w : ℚ) * f| ≤ 1 / 2 := abs_le.mpr ⟨by linarith [hb1.1], hb1.2⟩
  have hq : |(m : ℚ) / f - (w : ℚ)| ≤ 1 := by
    have hrw : (m : ℚ) / f - (w : ℚ) = ((m : ℚ) - (w : ℚ) * f) / f := by
      field_simp
      ring
    rw [hrw, abs_div, div_le_one hfpos]
    linarith
  have habs2 : |(r0 : ℚ) - (m : ℚ) / f| ≤ 1 / 2 := abs_le.mpr ⟨by linarith [hb2.1], hb2.2⟩
  have h3 : |(r0 : ℚ) - (w : ℚ)| ≤ 3 / 2 := by
    have htri := abs_sub_le ((r0 : ℚ)) ((m : ℚ) / f) ((w : ℚ))
    linarith
  have h4 : -1 ≤ r0 - w ∧ r0 - w ≤ 1 := by
    have hcast : |((r0 - w : ℤ) : ℚ)| ≤ 3 / 2 := by
      push_cast
      exact h3
    have hint : |r0 - w| ≤ 1 := by
      by_contra hgt
      push_neg at hgt
      have h2le : (1 : ℤ) + 1 ≤ |r0 - w| := Int.lt_iff_add_one_le.mp hgt
      have h2q : ((1 : ℤ) + 1 : ℚ) ≤ ((|r0 - w| : ℤ) : ℚ) := by
        exact_mod_cast h2le
      rw [Int.cast_abs] at h2q
      push_cast at h2q
      linarith
    exact abs_le.mp hint
  have hrc : clampI32 r0 = r := by
    injection hr
  subst hrc
  exact clampI32_near hw1 hw2 h4.1 h4.2

/-- C5 witness: the amended round trip at a concrete weight, offset and
factor. -/
theorem c5_witness : roundTripOK 120 30000 430 :=
  c5_round_trip 120 30000 430 (by norm_num) (by norm_num)
    (by rw [abs_of_pos (by norm_num : (0 : ℚ) < 430)]; norm_num)

end WeightSensor
